import Mathlib

/-!
Verification of the retroarcade audio/video bridge.

The audio consume operation is the closure built in `EmulatorState::create`
(src/emulator.rs, lines 97-140), invoked by the cpal callback installed in
`audio::run_with_format` (src/audio.rs, lines 36-61).  Samples are interleaved
stereo 16-bit integers, modelled as `ℤ`; the `f64` arithmetic of the source
(`delay_factor`, `sample_index`) is modelled exactly by `ℚ`.  Fallible steps
(`Vec::drain` / slice indexing out of range, `unimplemented!()`) are modelled
by `Option`/`Except`, with `none`/`error` standing for a Rust panic.
-/

/-- `let sample_index = (output_index as f64 * resample_rate) as usize;`
(src/emulator.rs line 123).  The `as usize` cast of a non-negative float
truncates toward zero, i.e. takes the floor; on a negative value it
saturates to 0, which `Int.toNat` also does. -/
def sample_index (output_index : ℕ) (resample_rate : ℚ) : ℕ :=
  (Int.floor ((output_index : ℚ) * resample_rate)).toNat

/-- `core_buf.len() as f64 / (output_buf.len() as f64 * resample_rate)`
(src/emulator.rs lines 102-103), for the case `output_buf.len() > 0`
(the `output_buf.len() = 0` IEEE special cases are handled in
`delay_triggered` and `skipped_samples`). -/
def delay_factor (available requested : ℕ) (resample_rate : ℚ) : ℚ :=
  (available : ℚ) / ((requested : ℚ) * resample_rate)

/-- The test `delay_factor > 1.6` (src/emulator.rs line 106).  When
`output_buf.len() = 0` and the buffer is non-empty the f64 quotient is `+inf`
(so the test holds); when both are zero it is `NaN` (so the test fails). -/
def delay_triggered (available requested : ℕ) (resample_rate : ℚ) : Bool :=
  if requested = 0 then decide (0 < available)
  else decide ((8 : ℚ) / 5 < delay_factor available requested resample_rate)

/-- `let skipped_samples = ((delay_factor - 1.5) * output_buf.len() as f64) as usize;`
(src/emulator.rs line 110).  For `output_buf.len() = 0` the f64 value is
`(inf - 1.5) * 0 = NaN`, and `NaN as usize = 0`. -/
def skipped_samples (available requested : ℕ) (resample_rate : ℚ) : ℕ :=
  if requested = 0 then 0
  else (Int.floor ((delay_factor available requested resample_rate - 3 / 2)
    * (requested : ℚ))).toNat

/-- Delay compensation (src/emulator.rs lines 105-120):
`if delay_factor > 1.6 { core_buf.drain(..skipped_samples); }`.
`Vec::drain(..n)` panics when `n` exceeds the vector length; this is the
`none` case. -/
def drift_compensation (core_buf : List ℤ) (requested : ℕ)
    (resample_rate : ℚ) : Option (List ℤ) :=
  if delay_triggered core_buf.length requested resample_rate then
    if skipped_samples core_buf.length requested resample_rate ≤ core_buf.length then
      some (core_buf.drop (skipped_samples core_buf.length requested resample_rate))
    else none
  else some core_buf

/-- The copy loop of the consume closure (src/emulator.rs lines 122-133):
iterate `output_index` from `i`, and while
`output_index < output_buf.len() && sample_index < core_buf.len()`
set `output_buf[output_index] = core_buf[sample_index]` and `last = sample_index`.
The loop runs at most `output_buf.len()` further iterations, which bounds the
fuel; `List.set` leaves the list unchanged out of range, matching that the
write only happens inside the guard. -/
def consume_loop (core_buf : List ℤ) (resample_rate : ℚ) :
    ℕ → List ℤ → ℕ → ℕ → List ℤ × ℕ
  | 0, output_buf, _, last => (output_buf, last)
  | fuel + 1, output_buf, output_index, last =>
    if output_index < output_buf.length ∧
        sample_index output_index resample_rate < core_buf.length then
      consume_loop core_buf resample_rate fuel
        (output_buf.set output_index
          (core_buf.getD (sample_index output_index resample_rate) 0))
        (output_index + 1) (sample_index output_index resample_rate)
    else (output_buf, last)

/-- Number of iterations the copy loop performs starting at `output_index`,
with the same guard and the same fuel discipline as `consume_loop`. -/
def copy_count_from (available requested : ℕ) (resample_rate : ℚ) :
    ℕ → ℕ → ℕ
  | 0, _ => 0
  | fuel + 1, output_index =>
    if output_index < requested ∧
        sample_index output_index resample_rate < available then
      copy_count_from available requested resample_rate fuel (output_index + 1) + 1
    else 0

/-- Number of output positions the copy loop fills in one invocation
(`requested` = output length, `available` = core buffer length). -/
def copy_count (requested available : ℕ) (resample_rate : ℚ) : ℕ :=
  copy_count_from available requested resample_rate requested 0

/-- Removal of used samples (src/emulator.rs lines 135-138):
`if last < core_buf.len() { core_buf.drain(..=last); }`. -/
def remove_used (core_buf : List ℤ) (last : ℕ) : List ℤ :=
  if last < core_buf.length then core_buf.drop (last + 1) else core_buf

/-- One invocation of the audio consume closure (src/emulator.rs lines 97-140)
on the locked buffer `core_buf` and the host-supplied `output_buf`:
delay compensation, then the copy loop started at `output_index = 0`,
`last = 0`, then removal of used samples.  Returns the updated output buffer
and the remaining core buffer; `none` models a panic. -/
def consume (core_buf output_buf : List ℤ) (resample_rate : ℚ) :
    Option (List ℤ × List ℤ) :=
  match drift_compensation core_buf output_buf.length resample_rate with
  | none => none
  | some core_buf1 =>
    let res := consume_loop core_buf1 resample_rate output_buf.length output_buf 0 0
    some (res.1, remove_used core_buf1 res.2)

/-- `buf.resize(output.len(), 0)` on the persistent intermediate buffer of
`run_with_format` (src/audio.rs lines 37 and 50): growing appends zeros,
shrinking truncates. -/
def resize_buf (buf : List ℤ) (n : ℕ) : List ℤ :=
  if buf.length < n then buf ++ List.replicate (n - buf.length) 0 else buf.take n

/-- The output fill of `run_with_format` (src/audio.rs lines 54-60): the host
buffer holds `frames` stereo frames (`channels = 2`); frame `f` receives the
`f`-th exact 2-chunk of `buf`, or `[0, 0]` once `buf.chunks_exact(2)` is
exhausted.  The i16-to-host-sample conversion is value-preserving, so the host
output is modelled in the same `ℤ` sample space. -/
def frame_fill (buf : List ℤ) (frames : ℕ) : List ℤ :=
  (List.range frames).flatMap fun f =>
    if 2 * f + 1 < buf.length then [buf.getD (2 * f) 0, buf.getD (2 * f + 1) 0]
    else [0, 0]

/-- One host audio callback (src/audio.rs lines 48-61): resize the persistent
intermediate buffer to the host buffer length `2 * frames`, run the consume
closure on it, then fill the host output frame by frame.  Returns (new
persistent intermediate buffer, new core buffer, host output). -/
def host_callback (buf core_buf : List ℤ) (frames : ℕ) (resample_rate : ℚ) :
    Option (List ℤ × List ℤ × List ℤ) :=
  match consume core_buf (resize_buf buf (2 * frames)) resample_rate with
  | none => none
  | some res => some (res.1, res.2, frame_fill res.1 frames)

/-- `EmulatorState::update_audio_buffer` (src/emulator.rs lines 256-263):
`buf.extend_from_slice(b)` under the lock appends the newly produced core
samples. -/
def extend_audio_buffer (buf new_samples : List ℤ) : List ℤ :=
  buf ++ new_samples

example : sample_index 3 (1 / 2) = 1 := by norm_num [sample_index]

example : consume_loop [8, 9, 10] 1 2 [0, 0] 0 0 = ([8, 9], 1) := by
  norm_num [consume_loop, sample_index]

lemma sample_index_zero (r : ℚ) : sample_index 0 r = 0 := by
  simp [sample_index]

lemma consume_loop_succ (core_buf : List ℤ) (r : ℚ) (fuel : ℕ) (out : List ℤ)
    (i last : ℕ) :
    consume_loop core_buf r (fuel + 1) out i last =
      if i < out.length ∧ sample_index i r < core_buf.length then
        consume_loop core_buf r fuel
          (out.set i (core_buf.getD (sample_index i r) 0)) (i + 1)
          (sample_index i r)
      else (out, last) := rfl

lemma copy_count_from_succ (available requested : ℕ) (r : ℚ) (fuel i : ℕ) :
    copy_count_from available requested r (fuel + 1) i =
      if i < requested ∧ sample_index i r < available then
        copy_count_from available requested r fuel (i + 1) + 1
      else 0 := rfl

lemma consume_loop_length (core_buf : List ℤ) (r : ℚ) :
    ∀ fuel out i last,
      ((consume_loop core_buf r fuel out i last).1).length = out.length := by
  intro fuel
  induction fuel with
  | zero => intro out i last; rfl
  | succ fuel ih =>
    intro out i last
    rw [consume_loop_succ]
    by_cases h : i < out.length ∧ sample_index i r < core_buf.length
    · rw [if_pos h, ih]
      exact List.length_set out i _
    · rw [if_neg h]

lemma copy_count_from_guard (available requested : ℕ) (r : ℚ) :
    ∀ fuel i j, i ≤ j → j < i + copy_count_from available requested r fuel i →
      j < requested ∧ sample_index j r < available := by
  intro fuel
  induction fuel with
  | zero =>
    intro i j h1 h2
    simp only [copy_count_from] at h2
    omega
  | succ fuel ih =>
    intro i j h1 h2
    rw [copy_count_from_succ] at h2
    by_cases h : i < requested ∧ sample_index i r < available
    · rw [if_pos h] at h2
      rcases Nat.eq_or_lt_of_le h1 with rfl | hlt
      · exact h
      · exact ih (i + 1) j hlt (by omega)
    · rw [if_neg h] at h2
      omega

lemma consume_loop_getD (core_buf : List ℤ) (r : ℚ) :
    ∀ fuel out i last j,
      ((consume_loop core_buf r fuel out i last).1).getD j 0 =
        if i ≤ j ∧ j < i + copy_count_from core_buf.length out.length r fuel i
        then core_buf.getD (sample_index j r) 0
        else out.getD j 0 := by
  intro fuel
  induction fuel with
  | zero =>
    intro out i last j
    simp only [consume_loop, copy_count_from]
    rw [if_neg (by omega)]
  | succ fuel ih =>
    intro out i last j
    rw [consume_loop_succ, copy_count_from_succ]
    by_cases h : i < out.length ∧ sample_index i r < core_buf.length
    · rw [if_pos h, if_pos h, ih]
      simp only [List.length_set]
      rcases lt_trichotomy j i with hj | rfl | hj
      · rw [if_neg (by omega), if_neg (by omega),
          List.getD_eq_getElem?_getD, List.getElem?_set_ne (by omega),
          ← List.getD_eq_getElem?_getD]
      · rw [if_neg (by omega), if_pos ⟨le_refl j, by omega⟩,
          List.getD_eq_getElem?_getD, List.getElem?_set_eq_of_lt _ h.1]
        simp
      · by_cases hj2 :
          j < i + (copy_count_from core_buf.length out.length r fuel (i + 1) + 1)
        · rw [if_pos ⟨by omega, by omega⟩, if_pos ⟨by omega, hj2⟩]
        · rw [if_neg (by omega), if_neg (by omega),
            List.getD_eq_getElem?_getD, List.getElem?_set_ne (by omega),
            ← List.getD_eq_getElem?_getD]
    · rw [if_neg h, if_neg h, if_neg (by omega)]

lemma consume_loop_last (core_buf : List ℤ) (r : ℚ) :
    ∀ fuel out i last,
      (consume_loop core_buf r fuel out i last).2 =
        if copy_count_from core_buf.length out.length r fuel i = 0 then last
        else
          sample_index
            (i + copy_count_from core_buf.length out.length r fuel i - 1) r := by
  intro fuel
  induction fuel with
  | zero =>
    intro out i last
    simp [consume_loop, copy_count_from]
  | succ fuel ih =>
    intro out i last
    rw [consume_loop_succ, copy_count_from_succ]
    by_cases h : i < out.length ∧ sample_index i r < core_buf.length
    · rw [if_pos h, if_pos h, ih]
      simp only [List.length_set]
      have h1 :
          ¬(copy_count_from core_buf.length out.length r fuel (i + 1) + 1 = 0) := by
        omega
      rw [if_neg h1]
      by_cases h0 : copy_count_from core_buf.length out.length r fuel (i + 1) = 0
      · rw [if_pos h0, h0]
        have h2 : i + (0 + 1) - 1 = i := by omega
        rw [h2]
      · rw [if_neg h0]
        congr 1
        omega
    · rw [if_neg h, if_neg h, if_pos rfl]

lemma copy_count_pos (requested available : ℕ) (r : ℚ)
    (hn : 0 < requested) (ha : 0 < available) :
    0 < copy_count requested available r := by
  unfold copy_count
  rcases Nat.exists_eq_succ_of_ne_zero (Nat.pos_iff_ne_zero.mp hn) with ⟨fuel, rfl⟩
  rw [copy_count_from_succ, if_pos ⟨hn, by rw [sample_index_zero]; exact ha⟩]
  omega

lemma consume_loop_nil (r : ℚ) (fuel : ℕ) (out : List ℤ) (i last : ℕ) :
    consume_loop [] r fuel out i last = (out, last) := by
  cases fuel with
  | zero => rfl
  | succ fuel => rw [consume_loop_succ, if_neg (by simp)]

lemma resize_buf_nil (n : ℕ) : resize_buf [] n = List.replicate n 0 := by
  cases n with
  | zero => simp [resize_buf]
  | succ n => simp [resize_buf]

lemma resize_buf_length (buf : List ℤ) (n : ℕ) : (resize_buf buf n).length = n := by
  unfold resize_buf
  by_cases h : buf.length < n
  · rw [if_pos h]
    simp
    omega
  · rw [if_neg h]
    simp
    omega

lemma replicate_getD_zero (n i : ℕ) : (List.replicate n (0 : ℤ)).getD i 0 = 0 := by
  rw [List.getD_eq_getElem?_getD, List.getElem?_replicate]
  by_cases h : i < n <;> simp [h]

lemma frame_fill_take (buf : List ℤ) :
    ∀ frames, 2 * frames ≤ buf.length →
      frame_fill buf frames = buf.take (2 * frames) := by
  intro frames
  induction frames with
  | zero => intro h; simp [frame_fill]
  | succ n ih =>
    intro h
    have h2 : 2 * n ≤ buf.length := by omega
    have e1 : frame_fill buf (n + 1) =
        frame_fill buf n ++
          (if 2 * n + 1 < buf.length then
            [buf.getD (2 * n) 0, buf.getD (2 * n + 1) 0] else [0, 0]) := by
      unfold frame_fill
      rw [List.range_succ, List.flatMap_append, List.flatMap_cons, List.flatMap_nil,
        List.append_nil]
    have hlt1 : 2 * n + 1 < buf.length := by omega
    have hlt0 : 2 * n < buf.length := by omega
    rw [e1, if_pos hlt1, ih h2]
    have e2 : 2 * (n + 1) = 2 * n + 1 + 1 := by omega
    have e3 : List.take (2 * n + 1 + 1) buf =
        List.take (2 * n) buf ++ [buf[2 * n], buf[2 * n + 1]] := by
      rw [List.take_succ, List.take_succ, List.getElem?_eq_getElem hlt1,
        List.getElem?_eq_getElem hlt0]
      simp only [Option.toList_some, List.append_assoc, List.cons_append,
        List.nil_append]
    rw [e2, e3, List.getD_eq_getElem buf 0 hlt0, List.getD_eq_getElem buf 0 hlt1]

lemma frame_fill_of_length (buf : List ℤ) (frames : ℕ)
    (h : buf.length = 2 * frames) : frame_fill buf frames = buf := by
  rw [frame_fill_take buf frames (le_of_eq h.symm), ← h, List.take_length]

/-- C9: if the core sample buffer is empty when the consume closure is
invoked, neither the delay compensation nor the removal of used samples
drains anything, the output buffer is untouched, and the closure returns
normally (for every output length and every resample rate). -/
theorem consume_empty_buffer_noop (output_buf : List ℤ) (r : ℚ) :
    consume [] output_buf r = some (output_buf, []) := by
  have hd : drift_compensation [] output_buf.length r = some [] := by
    by_cases h : output_buf.length = 0 <;>
      norm_num [drift_compensation, delay_triggered, delay_factor, h]
  unfold consume
  rw [hd]
  show some ((consume_loop [] r output_buf.length output_buf 0 0).1,
    remove_used [] (consume_loop [] r output_buf.length output_buf 0 0).2) = _
  rw [consume_loop_nil]
  simp [remove_used]

/-- C6: within one consume invocation, every iteration `j` of the resample
copy loop (there are `copy_count` of them; iteration `j` reads
`core_buf[sample_index j r]` and writes `output_buf[j]`) stays strictly
inside both buffers: the source index never exceeds `available - 1` and the
output index never exceeds `requested - 1`. -/
theorem consume_loop_reads_in_bounds (requested available : ℕ) (r : ℚ)
    (hr : 0 < r) (ha : 0 < available) (j : ℕ)
    (hj : j < copy_count requested available r) :
    j ≤ requested - 1 ∧ sample_index j r ≤ available - 1 := by
  have h := copy_count_from_guard available requested r requested 0 j
    (Nat.zero_le j) (by unfold copy_count at hj; omega)
  omega

theorem consume_loop_reads_in_bounds_witness :
    0 < (1 / 2 : ℚ) ∧ 0 < 2 ∧ 3 < copy_count 4 2 (1 / 2) ∧
      (3 ≤ 4 - 1 ∧ sample_index 3 (1 / 2) ≤ 2 - 1) := by
  refine ⟨by norm_num, by norm_num, ?_, ?_⟩
  · norm_num [copy_count, copy_count_from, sample_index]
  · exact consume_loop_reads_in_bounds 4 2 (1 / 2) (by norm_num) (by norm_num) 3
      (by norm_num [copy_count, copy_count_from, sample_index])

/-- C5 counterexample: at `available_samples = 8`, `requested_count = 2`,
`resample_ratio = 1/2` the delay factor is `8 > 1.6`, the computed drop count
is `13`, and `core_buf.drain(..13)` on a buffer of 8 samples panics
(modelled by `none`), so it is not the case that exactly
`floor((delay_factor - 1.5) * requested_count)` samples are removed from the
front of the buffer. -/
theorem drift_compensation_overdrop_panics :
    drift_compensation [1, 1, 1, 1, 1, 1, 1, 1] 2 (1 / 2) = none ∧
      skipped_samples 8 2 (1 / 2) = 13 := by
  constructor
  · norm_num [drift_compensation, delay_triggered, skipped_samples, delay_factor]
  · norm_num [skipped_samples, delay_factor]
    decide

/-- C5 amended: at the start of every consume invocation with
`requested_count > 0`, `delay_factor = available / (requested × ratio)` is
computed; whenever `delay_factor > 1.6` and the computed drop count
`floor((delay_factor - 1.5) × requested)` does not exceed the buffer
occupancy, exactly that many samples are removed from the front of the
buffer before resampling; whenever `delay_factor ≤ 1.6` no samples are
dropped; when the count exceeds the occupancy the drain panics. -/
theorem drift_compensation_exact (core_buf : List ℤ) (requested : ℕ) (r : ℚ)
    (hn : 0 < requested) (hr : 0 < r) :
    ((8 : ℚ) / 5 < delay_factor core_buf.length requested r →
      skipped_samples core_buf.length requested r ≤ core_buf.length →
      drift_compensation core_buf requested r =
        some (core_buf.drop
          ((Int.floor ((delay_factor core_buf.length requested r - 3 / 2) *
            (requested : ℚ))).toNat))) ∧
    (delay_factor core_buf.length requested r ≤ (8 : ℚ) / 5 →
      drift_compensation core_buf requested r = some core_buf) := by
  have hn' : requested ≠ 0 := Nat.pos_iff_ne_zero.mp hn
  constructor
  · intro htrig hle
    have ht : delay_triggered core_buf.length requested r = true := by
      unfold delay_triggered
      rw [if_neg hn']
      exact decide_eq_true htrig
    unfold drift_compensation
    rw [ht, if_pos rfl, if_pos hle]
    unfold skipped_samples
    rw [if_neg hn']
  · intro hle
    have ht : delay_triggered core_buf.length requested r = false := by
      unfold delay_triggered
      rw [if_neg hn']
      exact decide_eq_false (not_lt.mpr hle)
    unfold drift_compensation
    rw [ht]
    simp

theorem drift_compensation_exact_witness :
    0 < 2 ∧ 0 < (1 : ℚ) ∧
      ((8 : ℚ) / 5 < delay_factor 10 2 1 ∧ skipped_samples 10 2 1 ≤ 10) ∧
      drift_compensation [1, 2, 3, 4, 5, 6, 7, 8, 9, 10] 2 1 =
        some [8, 9, 10] := by
  have h := (drift_compensation_exact [1, 2, 3, 4, 5, 6, 7, 8, 9, 10] 2 1
    (by norm_num) (by norm_num)).1
  refine ⟨by norm_num, by norm_num,
    ⟨by norm_num [delay_factor], by norm_num [skipped_samples, delay_factor]⟩, ?_⟩
  rw [h (by norm_num [delay_factor]) (by norm_num [skipped_samples, delay_factor,
    Int.toNat_ofNat])]
  norm_num [delay_factor]
  decide

/-- C4 counterexample: with `requested_count = 0` and a non-empty core buffer
(`[5, 6]`), the copy loop runs zero iterations (`copy_count 0 2 1 = 0`, no
source sample is consumed), yet the removal step drains one sample: the
sentinel `last = 0` satisfies `last < core_buf.len()`, so `drain(..=0)`
removes `core_buf[0]`, leaving `[6]` instead of `[5, 6]`. -/
theorem consume_zero_request_drains_one :
    host_callback [] [5, 6] 0 1 = some ([], [6], []) ∧
      copy_count 0 2 1 = 0 ∧ ([6] : List ℤ) ≠ [5, 6] := by
  refine ⟨?_, rfl, by decide⟩
  norm_num [host_callback, resize_buf, consume, drift_compensation, delay_triggered,
    skipped_samples, delay_factor, consume_loop, remove_used, frame_fill]

/-- C4 amended: after the resample copy loop, when at least one source sample
was consumed, the removal step drops exactly the source prefix up to and
including the last consumed index `sample_index (copy_count - 1) r`
(including any samples skipped over by decimation); when nothing was consumed
because the buffer is empty, nothing is removed; but when nothing was
consumed while the buffer is non-empty (a zero-length request), the `last = 0`
sentinel makes the step remove the first sample. -/
theorem remove_used_drains_consumed (core_buf output_buf : List ℤ) (r : ℚ)
    (hr : 0 < r) :
    (0 < copy_count output_buf.length core_buf.length r →
      remove_used core_buf
          (consume_loop core_buf r output_buf.length output_buf 0 0).2 =
        core_buf.drop
          (sample_index (copy_count output_buf.length core_buf.length r - 1) r
            + 1)) ∧
    (copy_count output_buf.length core_buf.length r = 0 → core_buf = [] →
      remove_used core_buf
          (consume_loop core_buf r output_buf.length output_buf 0 0).2 =
        core_buf) ∧
    (copy_count output_buf.length core_buf.length r = 0 → core_buf ≠ [] →
      remove_used core_buf
          (consume_loop core_buf r output_buf.length output_buf 0 0).2 =
        core_buf.drop 1) := by
  have hlast := consume_loop_last core_buf r output_buf.length output_buf 0 0
  simp only [Nat.zero_add] at hlast
  refine ⟨?_, ?_, ?_⟩
  · intro hk
    unfold copy_count at hk ⊢
    rw [hlast, if_neg (by omega)]
    have hin := copy_count_from_guard core_buf.length output_buf.length r
      output_buf.length 0
      (copy_count_from core_buf.length output_buf.length r output_buf.length 0 - 1)
      (Nat.zero_le _) (by omega)
    unfold remove_used
    rw [if_pos hin.2]
  · intro hk hc
    unfold copy_count at hk
    rw [hlast, if_pos hk]
    subst hc
    simp [remove_used]
  · intro hk hc
    unfold copy_count at hk
    rw [hlast, if_pos hk]
    unfold remove_used
    rw [if_pos (List.length_pos.mpr hc)]

theorem remove_used_drains_consumed_witness :
    0 < (1 : ℚ) ∧ copy_count 0 2 1 = 0 ∧ ([5, 6] : List ℤ) ≠ [] ∧
      remove_used [5, 6] (consume_loop [5, 6] 1 ([] : List ℤ).length [] 0 0).2 =
        ([5, 6] : List ℤ).drop 1 :=
  ⟨by norm_num, rfl, by decide,
    (remove_used_drains_consumed [5, 6] [] 1 (by norm_num)).2.2 rfl (by decide)⟩

/-- C3 counterexample: starting from an even-length buffer of 10 samples and
an even host request of 2 samples (1 stereo frame) at ratio 1, the delay
compensation drops 7 samples (odd) and the removal step then drops another 2,
leaving a buffer of length 1: both before-and-after evenness and
whole-stereo-frame draining fail. -/
theorem consume_breaks_stereo_alignment :
    host_callback [] [1, 2, 3, 4, 5, 6, 7, 8, 9, 10] 1 1 =
        some ([8, 9], [10], [8, 9]) ∧
      2 ∣ ([1, 2, 3, 4, 5, 6, 7, 8, 9, 10] : List ℤ).length ∧
      ¬ 2 ∣ ([10] : List ℤ).length := by
  refine ⟨?_, by decide, by decide⟩
  norm_num [host_callback, resize_buf, consume, drift_compensation, delay_triggered,
    skipped_samples, delay_factor, consume_loop, sample_index, remove_used,
    frame_fill, List.range_succ]
  decide

/-- C3 amended: the producer side preserves stereo alignment — an append of an
even-length slice in `update_audio_buffer` keeps the shared buffer length a
multiple of 2 — but the consume side does not: its two drains can remove an
odd number of samples (see the counterexample). -/
theorem extend_audio_buffer_stereo_aligned (buf new_samples : List ℤ)
    (hb : 2 ∣ buf.length) (hn : 2 ∣ new_samples.length) :
    2 ∣ (extend_audio_buffer buf new_samples).length := by
  unfold extend_audio_buffer
  rw [List.length_append]
  exact Nat.dvd_add hb hn

theorem extend_audio_buffer_stereo_aligned_witness :
    2 ∣ ([1, 2] : List ℤ).length ∧ 2 ∣ ([3, 4] : List ℤ).length ∧
      2 ∣ (extend_audio_buffer [1, 2] [3, 4]).length :=
  ⟨by decide, by decide,
    extend_audio_buffer_stereo_aligned [1, 2] [3, 4] (by decide) (by decide)⟩

/-- C1 counterexample: a single invocation with `requested_count = 2`
(1 stereo frame), `resample_ratio = 1/2` and 8 buffered samples panics
instead of writing 2 samples: `delay_factor = 8 / (2 × 1/2) = 8 > 1.6`, the
drop count is `(8 - 1.5) × 2 = 13`, and `core_buf.drain(..13)` on 8 samples
panics (`none`). -/
theorem host_callback_panics_on_overfull_buffer :
    host_callback [] [1, 1, 1, 1, 1, 1, 1, 1] 1 (1 / 2) = none := by
  norm_num [host_callback, resize_buf, consume, drift_compensation, delay_triggered,
    skipped_samples, delay_factor]

/-- C1 amended: a single invocation of the audio consume operation from
stream start (fresh intermediate buffer), for any request of `frames` stereo
frames (`N = 2 × frames ≥ 0` output samples), any buffer occupancy `A ≥ 0`
and any `resample_ratio > 0`, terminates and writes exactly `N` output
samples — the copied prefix followed by trailing silence — provided the
drift-compensation drop count does not exceed the buffer occupancy whenever
it triggers (without that proviso the drain panics, see the
counterexample). -/
theorem host_callback_writes_requested (core_buf : List ℤ) (frames : ℕ) (r : ℚ)
    (hr : 0 < r)
    (hskip : delay_triggered core_buf.length (2 * frames) r = true →
      skipped_samples core_buf.length (2 * frames) r ≤ core_buf.length) :
    ∃ core_buf1 out core_buf2,
      drift_compensation core_buf (2 * frames) r = some core_buf1 ∧
      host_callback [] core_buf frames r = some (out, core_buf2, out) ∧
      out.length = 2 * frames ∧
      (∀ i, i < copy_count (2 * frames) core_buf1.length r →
        out.getD i 0 = core_buf1.getD (sample_index i r) 0) ∧
      (∀ i, copy_count (2 * frames) core_buf1.length r ≤ i → i < 2 * frames →
        out.getD i 0 = 0) := by
  obtain ⟨core_buf1, hd⟩ :
      ∃ c, drift_compensation core_buf (2 * frames) r = some c := by
    unfold drift_compensation
    by_cases ht : delay_triggered core_buf.length (2 * frames) r = true
    · rw [if_pos ht, if_pos (hskip ht)]
      exact ⟨_, rfl⟩
    · rw [if_neg ht]
      exact ⟨_, rfl⟩
  have hlen : (List.replicate (2 * frames) (0 : ℤ)).length = 2 * frames :=
    List.length_replicate _ _
  have hc : consume core_buf (List.replicate (2 * frames) 0) r =
      some ((consume_loop core_buf1 r (2 * frames)
          (List.replicate (2 * frames) 0) 0 0).1,
        remove_used core_buf1
          (consume_loop core_buf1 r (2 * frames)
            (List.replicate (2 * frames) 0) 0 0).2) := by
    unfold consume
    rw [hlen, hd]
  have hout_len :
      ((consume_loop core_buf1 r (2 * frames)
        (List.replicate (2 * frames) 0) 0 0).1).length = 2 * frames := by
    rw [consume_loop_length, hlen]
  refine ⟨core_buf1,
    (consume_loop core_buf1 r (2 * frames) (List.replicate (2 * frames) 0) 0 0).1,
    remove_used core_buf1
      (consume_loop core_buf1 r (2 * frames) (List.replicate (2 * frames) 0) 0 0).2,
    hd, ?_, hout_len, ?_, ?_⟩
  · unfold host_callback
    rw [resize_buf_nil, hc]
    show some
        ((consume_loop core_buf1 r (2 * frames)
            (List.replicate (2 * frames) 0) 0 0).1,
          remove_used core_buf1
            (consume_loop core_buf1 r (2 * frames)
              (List.replicate (2 * frames) 0) 0 0).2,
          frame_fill
            (consume_loop core_buf1 r (2 * frames)
              (List.replicate (2 * frames) 0) 0 0).1 frames) = _
    rw [frame_fill_of_length _ _ hout_len]
  · intro i hi
    have hg := consume_loop_getD core_buf1 r (2 * frames)
      (List.replicate (2 * frames) 0) 0 0 i
    rw [hlen] at hg
    rw [hg, if_pos ⟨Nat.zero_le i, by unfold copy_count at hi; omega⟩]
  · intro i hk hi
    have hg := consume_loop_getD core_buf1 r (2 * frames)
      (List.replicate (2 * frames) 0) 0 0 i
    rw [hlen] at hg
    rw [hg, if_neg (by unfold copy_count at hk; omega), replicate_getD_zero]

theorem host_callback_writes_requested_witness :
    0 < (1 : ℚ) ∧
      (delay_triggered ([1, 2, 3, 4] : List ℤ).length (2 * 1) 1 = true →
        skipped_samples ([1, 2, 3, 4] : List ℤ).length (2 * 1) 1 ≤
          ([1, 2, 3, 4] : List ℤ).length) ∧
      (∃ core_buf1 out core_buf2,
        drift_compensation [1, 2, 3, 4] (2 * 1) 1 = some core_buf1 ∧
        host_callback [] [1, 2, 3, 4] 1 1 = some (out, core_buf2, out) ∧
        out.length = 2 * 1 ∧
        (∀ i, i < copy_count (2 * 1) core_buf1.length 1 →
          out.getD i 0 = core_buf1.getD (sample_index i 1) 0) ∧
        (∀ i, copy_count (2 * 1) core_buf1.length 1 ≤ i → i < 2 * 1 →
          out.getD i 0 = 0)) :=
  ⟨by norm_num,
    fun _ => by norm_num [skipped_samples, delay_factor],
    host_callback_writes_requested [1, 2, 3, 4] 1 1 (by norm_num)
      (fun _ => by norm_num [skipped_samples, delay_factor])⟩

/-- C2 failing input: two successive callbacks of one stereo frame each at
ratio 1.  The first (core buffer `[7, 7]`) fills the intermediate buffer with
the samples `7, 7`.  The second is a complete underrun (empty core buffer):
the copy loop copies nothing (`copy_count 2 0 1 = 0`, so the first uncopied
output index is 0), yet the host output is `[7, 7]`, not silence — the
persistent intermediate buffer is reused and `resize(n, 0)` re-zeroes only
newly grown positions, so the stale samples of the previous callback are
emitted again. -/
theorem underrun_tail_repeats_stale_samples :
    host_callback [] [7, 7] 1 1 = some ([7, 7], [], [7, 7]) ∧
      host_callback [7, 7] [] 1 1 = some ([7, 7], [], [7, 7]) ∧
      copy_count 2 0 1 = 0 ∧ ([7, 7] : List ℤ).getD 0 0 ≠ 0 := by
  refine ⟨?_, ?_, ?_, by decide⟩
  · norm_num [host_callback, resize_buf, consume, drift_compensation,
      delay_triggered, skipped_samples, delay_factor, consume_loop, sample_index,
      remove_used, frame_fill, List.range_succ]
    decide
  · norm_num [host_callback, resize_buf, consume, drift_compensation,
      delay_triggered, skipped_samples, delay_factor, consume_loop, sample_index,
      remove_used, frame_fill, List.range_succ]
  · norm_num [copy_count, copy_count_from, sample_index]

/-!
Pixel decoder: `EmulatorState::update_framebuffer` (src/emulator.rs lines
194-254).  Bytes are modelled as `ℕ`; the destination is `fb_image.bytes`,
a byte list of length `width * height * 4`.  The `unimplemented!()` panic on
`PixelFormat::ARGB1555` and the slice/index panics are modelled as `Except`
errors.
-/

inductive RetroPixelFormat
  | ARGB1555
  | ARGB8888
  | RGB565
deriving DecidableEq

inductive DecodeFailure
  | unsupportedPixelFormat
  | indexOutOfRange
deriving DecidableEq

/-- The `pixel_size` match (src/emulator.rs lines 215-219). -/
def retro_pixel_size : RetroPixelFormat → ℕ
  | .ARGB1555 => 2
  | .ARGB8888 => 4
  | .RGB565 => 2

/-- Modelled from the spec: the helper `pixels::rgb565to888` lives in the
external `retro-rs` crate, not in this repository; the spec describes it as
"a 16-bit value unpacked via a 5-6-5 bit-expansion to 8-bit channels". -/
def rgb565to888 (b0 b1 : ℕ) : ℕ × ℕ × ℕ :=
  let v := b0 + 256 * b1
  let r5 := (v / 2048) % 32
  let g6 := (v / 32) % 64
  let b5 := v % 32
  (r5 * 8 + r5 / 4, g6 * 4 + g6 / 16, b5 * 8 + b5 / 4)

/-- The `color_fn` match (src/emulator.rs lines 221-226):
`ARGB1555 => unimplemented!()` panics before any pixel is processed (the
`error` case); `ARGB8888 => |b| (b[2], b[1], b[0])`;
`RGB565 => |b| pixels::rgb565to888(b[0], b[1])`. -/
def color_fn : RetroPixelFormat → Except DecodeFailure (List ℕ → ℕ × ℕ × ℕ)
  | .ARGB1555 => .error .unsupportedPixelFormat
  | .ARGB8888 => .ok fun b => (b.getD 2 0, b.getD 1 0, b.getD 0 0)
  | .RGB565 => .ok fun b => rgb565to888 (b.getD 0 0) (b.getD 1 0)

/-- One native framebuffer as passed to the `peek_framebuffer` closure:
pixel format, `fb_width`, `fb_height`, `fb_pitch` and the borrowed byte
slice `fb`. -/
structure NativeFrame where
  pixfmt : RetroPixelFormat
  fb_width : ℕ
  fb_height : ℕ
  fb_pitch : ℕ
  fb : List ℕ

/-- The slice `&fb[fb_index..fb_index + pixel_size]` (src/emulator.rs line
237); a Rust slice panics when the end exceeds the length. -/
def slice_bytes (fb : List ℕ) (start len : ℕ) : Except DecodeFailure (List ℕ) :=
  if start + len ≤ fb.length then .ok ((fb.drop start).take len)
  else .error .indexOutOfRange

/-- The four indexed stores to `self.fb_image.bytes` (src/emulator.rs lines
239-242); each store panics when its index is out of range, so the pixel
write fails exactly when `tex_index + 3` is out of range. -/
def write_pixel (bytes : List ℕ) (tex_index red green blue : ℕ) :
    Except DecodeFailure (List ℕ) :=
  if tex_index + 3 < bytes.length then
    .ok ((((bytes.set tex_index red).set (tex_index + 1) green).set
      (tex_index + 2) blue).set (tex_index + 3) 255)
  else .error .indexOutOfRange

/-- The body of the per-pixel loop (src/emulator.rs lines 228-244) for pixel
`p = (y, x)`: compute `tex_index` and `fb_index`, skip the pixel (`continue`)
when `fb_index + 2 >= fb.len()`, otherwise slice the source bytes, apply the
colour function and store R, G, B, 0xFF. -/
def decode_pixel (frame : NativeFrame) (cf : List ℕ → ℕ × ℕ × ℕ)
    (bytes : List ℕ) (p : ℕ × ℕ) : Except DecodeFailure (List ℕ) :=
  let tex_index := (frame.fb_width * p.1 + p.2) * 4
  let fb_index := frame.fb_pitch * p.1 + p.2 * retro_pixel_size frame.pixfmt
  if frame.fb.length ≤ fb_index + 2 then .ok bytes
  else
    match slice_bytes frame.fb fb_index (retro_pixel_size frame.pixfmt) with
    | .error e => .error e
    | .ok b => write_pixel bytes tex_index (cf b).1 (cf b).2.1 (cf b).2.2

/-- Row-major iteration `for y in 0..fb_height { for x in 0..fb_width }`
(src/emulator.rs lines 228-229). -/
def pixel_pairs (fb_height fb_width : ℕ) : List (ℕ × ℕ) :=
  (List.range fb_height).flatMap fun y =>
    (List.range fb_width).map fun x => (y, x)

/-- The framebuffer copy closure of `update_framebuffer` (src/emulator.rs
lines 214-245): select the colour function (panicking at once on ARGB1555),
then decode every pixel in row-major order into the destination byte
buffer. -/
def update_framebuffer (frame : NativeFrame) (bytes : List ℕ) :
    Except DecodeFailure (List ℕ) :=
  match color_fn frame.pixfmt with
  | .error e => .error e
  | .ok cf => (pixel_pairs frame.fb_height frame.fb_width).foldlM
      (decode_pixel frame cf) bytes

lemma cell_lt (w h y x : ℕ) (hy : y < h) (hx : x < w) : w * y + x < w * h := by
  have h1 : w * (y + 1) ≤ w * h := Nat.mul_le_mul_left w hy
  have h2 : w * (y + 1) = w * y + w := by ring
  omega

lemma cell_inj (w y x py px : ℕ) (hx : x < w) (hpx : px < w)
    (h : w * y + x = w * py + px) : y = py ∧ x = px := by
  have hw : 0 < w := by omega
  have hy : y = py := by
    have h1 : (w * y + x) / w = (w * py + px) / w := by rw [h]
    rwa [Nat.mul_add_div hw, Nat.mul_add_div hw, Nat.div_eq_of_lt hx,
      Nat.div_eq_of_lt hpx, Nat.add_zero, Nat.add_zero] at h1
  subst hy
  exact ⟨rfl, by omega⟩

lemma mem_pixel_pairs (fb_height fb_width : ℕ) (p : ℕ × ℕ) :
    p ∈ pixel_pairs fb_height fb_width ↔
      p.1 < fb_height ∧ p.2 < fb_width := by
  unfold pixel_pairs
  simp only [List.mem_flatMap, List.mem_map, List.mem_range]
  constructor
  · rintro ⟨y, hy, x, hx, rfl⟩
    exact ⟨hy, hx⟩
  · rintro ⟨h1, h2⟩
    exact ⟨p.1, h1, p.2, h2, rfl⟩

lemma decode_pixel_ok (frame : NativeFrame) (cf : List ℕ → ℕ × ℕ × ℕ)
    (bytes : List ℕ) (p : ℕ × ℕ)
    (hps : retro_pixel_size frame.pixfmt ≤ 2)
    (hy : p.1 < frame.fb_height) (hx : p.2 < frame.fb_width)
    (hlen : bytes.length = frame.fb_width * frame.fb_height * 4) :
    ∃ out, decode_pixel frame cf bytes p = .ok out ∧
      out.length = bytes.length ∧
      (∀ q, q < (frame.fb_width * p.1 + p.2) * 4 ∨
          (frame.fb_width * p.1 + p.2) * 4 + 3 < q →
        out.getD q 0 = bytes.getD q 0) ∧
      (frame.fb.length ≤
          frame.fb_pitch * p.1 + p.2 * retro_pixel_size frame.pixfmt + 2 →
        out = bytes) := by
  simp only [decode_pixel]
  by_cases hskip : frame.fb.length ≤
      frame.fb_pitch * p.1 + p.2 * retro_pixel_size frame.pixfmt + 2
  · rw [if_pos hskip]
    exact ⟨bytes, rfl, rfl, fun q _ => rfl, fun _ => rfl⟩
  · rw [if_neg hskip]
    have hsl : slice_bytes frame.fb
        (frame.fb_pitch * p.1 + p.2 * retro_pixel_size frame.pixfmt)
        (retro_pixel_size frame.pixfmt) =
        .ok ((frame.fb.drop
          (frame.fb_pitch * p.1 + p.2 * retro_pixel_size frame.pixfmt)).take
          (retro_pixel_size frame.pixfmt)) := by
      unfold slice_bytes
      rw [if_pos (by omega)]
    rw [hsl]
    show ∃ out, write_pixel bytes ((frame.fb_width * p.1 + p.2) * 4) _ _ _ =
        .ok out ∧ _
    have hcell : frame.fb_width * p.1 + p.2 < frame.fb_width * frame.fb_height :=
      cell_lt _ _ _ _ hy hx
    have htex : (frame.fb_width * p.1 + p.2) * 4 + 3 < bytes.length := by
      rw [hlen]
      omega
    unfold write_pixel
    rw [if_pos htex]
    refine ⟨_, rfl, by simp, ?_, fun hc => absurd hc hskip⟩
    intro q hq
    rw [List.getD_eq_getElem?_getD, List.getD_eq_getElem?_getD,
      List.getElem?_set_ne (by omega), List.getElem?_set_ne (by omega),
      List.getElem?_set_ne (by omega), List.getElem?_set_ne (by omega)]

lemma decode_fold_ok (frame : NativeFrame) (cf : List ℕ → ℕ × ℕ × ℕ)
    (hps : retro_pixel_size frame.pixfmt ≤ 2) :
    ∀ (ps : List (ℕ × ℕ)) (bytes : List ℕ),
      (∀ p ∈ ps, p.1 < frame.fb_height ∧ p.2 < frame.fb_width) →
      bytes.length = frame.fb_width * frame.fb_height * 4 →
      ∃ out, ps.foldlM (decode_pixel frame cf) bytes = .ok out ∧
        out.length = bytes.length ∧
        ∀ q, (∀ p ∈ ps,
            frame.fb.length ≤
              frame.fb_pitch * p.1 + p.2 * retro_pixel_size frame.pixfmt + 2 ∨
            q < (frame.fb_width * p.1 + p.2) * 4 ∨
            (frame.fb_width * p.1 + p.2) * 4 + 3 < q) →
          out.getD q 0 = bytes.getD q 0 := by
  intro ps
  induction ps with
  | nil =>
    intro bytes _ _
    exact ⟨bytes, rfl, rfl, fun q _ => rfl⟩
  | cons p ps ih =>
    intro bytes hmem hlen
    obtain ⟨b1, hb1, hb1len, hb1un, hb1skip⟩ :=
      decode_pixel_ok frame cf bytes p hps (hmem p (by simp)).1
        (hmem p (by simp)).2 hlen
    obtain ⟨out, hout, houtlen, houtun⟩ :=
      ih b1 (fun q hq => hmem q (by simp [hq])) (hb1len.trans hlen)
    refine ⟨out, ?_, houtlen.trans hb1len, ?_⟩
    · rw [List.foldlM_cons, hb1]
      exact hout
    · intro q hq
      have h1 : out.getD q 0 = b1.getD q 0 :=
        houtun q (fun p' hp' => hq p' (by simp [hp']))
      rcases hq p (by simp) with hskip | hrange
      · rw [h1, hb1skip hskip]
      · rw [h1, hb1un q hrange]

/-- C7: whenever the pixel decoder is handed a frame whose pixel format is
ARGB1555, selecting the colour function fails at once (the source's
`unimplemented!()`, surfaced here as the `unsupportedPixelFormat` failure)
before any pixel is processed — for every width, height, pitch, source bytes
and destination: the frame is never handled silently and the session cannot
proceed past this first occurrence. -/
theorem argb1555_frame_fails_unsupported (fb_width fb_height fb_pitch : ℕ)
    (fb bytes : List ℕ) :
    update_framebuffer ⟨.ARGB1555, fb_width, fb_height, fb_pitch, fb⟩ bytes =
      .error .unsupportedPixelFormat := rfl

/-- C8 counterexample: an ARGB8888 frame of one pixel whose source holds only
3 bytes.  The pixel's read starts at `fb_index = 0`, which is not within
2 bytes of the end (`3 ≤ 0 + 2` is false), so the 2-byte guard does not skip
it — but the 4-byte slice `&fb[0..4]` then panics.  The decoder does raise a
hard failure on a truncated frame, refuting the claim for ARGB8888. -/
theorem argb8888_truncated_frame_panics :
    update_framebuffer ⟨.ARGB8888, 1, 1, 4, [0, 0, 0]⟩ (List.replicate 4 0) =
        .error .indexOutOfRange ∧
      ¬ ([0, 0, 0] : List ℕ).length ≤ 4 * 0 + 0 * retro_pixel_size .ARGB8888 + 2 := by
  exact ⟨rfl, by decide⟩

/-- C8 amended: for the 2-byte format RGB565 (ARGB1555 never reaches the
pixel loop), with a correctly sized destination, every per-pixel read that
would fall within 2 bytes of the end of the source region is skipped — no
write happens for that pixel and all four destination bytes of that pixel
keep their prior values — and decoding all remaining pixels completes without
failure or panic; for the 4-byte format ARGB8888 a pixel whose read extends
past the end while starting more than 2 bytes before it makes the decoder
fail (see the counterexample). -/
theorem rgb565_defensive_skip (fb_width fb_height fb_pitch : ℕ)
    (fb bytes : List ℕ) (hlen : bytes.length = fb_width * fb_height * 4) :
    ∃ out,
      update_framebuffer ⟨.RGB565, fb_width, fb_height, fb_pitch, fb⟩ bytes =
        .ok out ∧
      out.length = bytes.length ∧
      ∀ y x, y < fb_height → x < fb_width →
        fb.length ≤ fb_pitch * y + x * 2 + 2 →
        ∀ j, j < 4 →
          out.getD ((fb_width * y + x) * 4 + j) 0 =
            bytes.getD ((fb_width * y + x) * 4 + j) 0 := by
  obtain ⟨out, hout, houtlen, houtun⟩ :=
    decode_fold_ok ⟨.RGB565, fb_width, fb_height, fb_pitch, fb⟩
      (fun b => rgb565to888 (b.getD 0 0) (b.getD 1 0)) (Nat.le_refl 2)
      (pixel_pairs fb_height fb_width) bytes
      (fun p hp => (mem_pixel_pairs fb_height fb_width p).mp hp) hlen
  refine ⟨out, ?_, houtlen, ?_⟩
  · unfold update_framebuffer
    exact hout
  · intro y x hy hx hskip j hj
    apply houtun
    intro p hp
    obtain ⟨hp1, hp2⟩ := (mem_pixel_pairs fb_height fb_width p).mp hp
    dsimp only [retro_pixel_size]
    by_cases hcell : fb_width * p.1 + p.2 = fb_width * y + x
    · obtain ⟨hy2, hx2⟩ := cell_inj fb_width p.1 p.2 y x hp2 hx hcell
      left
      rw [hy2, hx2]
      exact hskip
    · right
      omega

theorem rgb565_defensive_skip_witness :
    (List.replicate 8 (0 : ℕ)).length = 1 * 2 * 4 ∧
      (∃ out,
        update_framebuffer ⟨.RGB565, 1, 2, 2, [9, 9]⟩ (List.replicate 8 0) =
          .ok out ∧
        out.length = (List.replicate 8 (0 : ℕ)).length ∧
        ∀ y x, y < 2 → x < 1 →
          ([9, 9] : List ℕ).length ≤ 2 * y + x * 2 + 2 →
          ∀ j, j < 4 →
            out.getD ((1 * y + x) * 4 + j) 0 =
              (List.replicate 8 (0 : ℕ)).getD ((1 * y + x) * 4 + j) 0) :=
  ⟨by decide, rgb565_defensive_skip 1 2 2 [9, 9] (List.replicate 8 0) (by decide)⟩

/-!
Emulation session teardown: `macroquad_main`'s `AppEvent::GoToMenu` handling
(src/main.rs lines 90-110) and `EmulatorState::snapshot` (src/emulator.rs
lines 346-350).
-/

/-- The save-state surface of the external core used by `snapshot`:
`emu.save_size()` and the in-place `emu.save(&mut buf)`, modelled by the byte
each position receives.  Writing through a borrowed `&mut [u8]` cannot change
the buffer length. -/
structure EmulatorHandle where
  save_size : ℕ
  save_byte : ℕ → ℕ

/-- `emu.save(&mut save_buffer)`: fills the provided buffer in place. -/
def emu_save (emu : EmulatorHandle) (buf : List ℕ) : List ℕ :=
  (List.range buf.length).map emu.save_byte

/-- `EmulatorState::snapshot` (src/emulator.rs lines 346-350):
`let mut save_buffer = vec![0u8; self.emu.save_size()]; self.emu.save(&mut
save_buffer); save_buffer`. -/
def snapshot (emu : EmulatorHandle) : List ℕ :=
  emu_save emu (List.replicate emu.save_size 0)

/-- The application state relevant to the GoToMenu transition: the current
state tag, the live emulator session (if any) and the on-disk saves store
(the sequence of persisted save blobs). -/
structure AppModel where
  state_is_menu : Bool
  emulator : Option EmulatorHandle
  saves : List (List ℕ)

/-- `AppEvent::GoToMenu` handling in `macroquad_main` (src/main.rs lines
90-110), success path: if an emulator is active, capture `snapshot()` and
persist it via `saves.save(..)`, then set `app.state = Menu` and drop the
`EmulatorState` (`app.emulator = None`). -/
def handle_go_to_menu (app : AppModel) : AppModel :=
  match app.emulator with
  | some emu =>
    { state_is_menu := true, emulator := none,
      saves := app.saves ++ [snapshot emu] }
  | none => { state_is_menu := true, emulator := none, saves := app.saves }

/-- C10: whenever the application handles GoToMenu while an EmulatorState is
active, a snapshot of exactly `emu.save_size()` bytes is captured from the
core and appended to the saves store, and only then is the EmulatorState
destroyed (the resulting state has no emulator and is in the menu). -/
theorem go_to_menu_persists_snapshot (app : AppModel) (emu : EmulatorHandle)
    (h : app.emulator = some emu) :
    (handle_go_to_menu app).saves = app.saves ++ [snapshot emu] ∧
      (snapshot emu).length = emu.save_size ∧
      (handle_go_to_menu app).emulator = none ∧
      (handle_go_to_menu app).state_is_menu = true := by
  unfold handle_go_to_menu
  rw [h]
  refine ⟨rfl, ?_, rfl, rfl⟩
  unfold snapshot emu_save
  rw [List.length_map, List.length_range, List.length_replicate]

theorem go_to_menu_persists_snapshot_witness :
    (AppModel.mk false (some ⟨3, fun _ => 7⟩) []).emulator =
        some ⟨3, fun _ => 7⟩ ∧
      ((handle_go_to_menu ⟨false, some ⟨3, fun _ => 7⟩, []⟩).saves =
          [] ++ [snapshot ⟨3, fun _ => 7⟩] ∧
        (snapshot (⟨3, fun _ => 7⟩ : EmulatorHandle)).length = 3 ∧
        (handle_go_to_menu ⟨false, some ⟨3, fun _ => 7⟩, []⟩).emulator = none ∧
        (handle_go_to_menu ⟨false, some ⟨3, fun _ => 7⟩, []⟩).state_is_menu =
          true) :=
  ⟨rfl, go_to_menu_persists_snapshot ⟨false, some ⟨3, fun _ => 7⟩, []⟩
    ⟨3, fun _ => 7⟩ rfl⟩
